import Mathlib

/-!
Verification development for the zono typed endpoint/socket contract layer.

The development shallowly embeds the request-parsing / response-dispatch
state machine of the HTTP server (class ZonoHttpServer), the symmetric
request-building / response-parsing logic of the client
(class ZonoEndpointClient), and the socket contract layer
(classes ZonoSocketServer and ZonoSocketClient).

The external schema engine (zod) is treated as an opaque capability: a
schema is a function from a JSON value to either a structured error value
or a parsed result, mirroring safeParse. The external HTTP runtime and the
socket transport are modelled through the narrow interfaces the code
consumes: a request record carrying path, decoded JSON body, ordered query
parameters and a header record, and a socket session that invokes
event listeners and catch-all listeners on each inbound message.
-/

namespace Zono

/-- JSON-compatible values exchanged on the wire. Numbers are abstracted
as integers; no claim depends on numeric representation. -/
inductive Json where
  | null
  | bool (b : Bool)
  | num (n : Int)
  | str (s : String)
  | arr (xs : List Json)
  | obj (fields : List (String × Json))

abbrev Chars := List Char

/-! ### Association-list helpers

JavaScript objects are modelled as insertion-ordered association lists
with unique keys. Assignment `o[k] = v` overwrites in place when the key
exists and appends otherwise. -/

def lookupKey {α : Type} : List (String × α) → String → Option α
  | [], _ => none
  | (k2, v) :: rest, k => if k2 = k then some v else lookupKey rest k

def hasKey {α : Type} (m : List (String × α)) (k : String) : Bool :=
  m.any (fun p => decide (p.1 = k))

def setKey {α : Type} (m : List (String × α)) (k : String) (v : α) : List (String × α) :=
  if hasKey m k then m.map (fun p => if p.1 = k then (k, v) else p)
  else m ++ [(k, v)]

/-- Fold JavaScript object assignments over a field list (object spread /
assignment loop). -/
def assignList {α : Type} (acc : List (String × α)) (fields : List (String × α)) :
    List (String × α) :=
  fields.foldl (fun a p => setKey a p.1 p.2) acc

/-! ### JavaScript string operations used by the dispatch engine

`String.prototype.replace` with a string pattern replaces only the first
occurrence; the code always replaces with the empty string.
`String.prototype.split("/")` splits on every slash and yields at least
one (possibly empty) piece. Both are defined on character lists and
lifted to strings. -/

/-- Whether `pat` is a leading run of `s`. -/
def leadsWith : Chars → Chars → Bool
  | _, [] => true
  | [], _ :: _ => false
  | c :: s, p :: pat => c = p && leadsWith s pat

/-- Remove the first occurrence of `pat` from `s`; `s` unchanged when
`pat` does not occur. Mirrors the JavaScript expression
`s.replace(pat, "")`. -/
def removeFirstOcc : Chars → Chars → Chars
  | [], _ => []
  | c :: rest, pat =>
    if leadsWith (c :: rest) pat then (c :: rest).drop pat.length
    else c :: removeFirstOcc rest pat

/-- Mirrors the JavaScript expression `s.split("/")`. -/
def splitOnSlash : Chars → List Chars
  | [] => [[]]
  | c :: rest =>
    if c = '/' then [] :: splitOnSlash rest
    else
      match splitOnSlash rest with
      | [] => [[c]]
      | g :: gs => (c :: g) :: gs

def jsReplaceFirst (s pat : String) : String :=
  (removeFirstOcc s.toList pat.toList).asString

def jsSplitSlash (s : String) : List String :=
  (splitOnSlash s.toList).map List.asString

/-! ### Schema engine interface

A schema exposes safeParse, returning either a structured error value
(the zod error diagnostic, carried opaquely) or the parsed output. The
output type follows the declared zono channel types:
body and response schemas output arbitrary JSON values, a query schema
outputs Partial<Record<string, Array<string>>>, a headers schema outputs
Partial<Record<string, string>>, and each additionalPaths tuple item
outputs a string. A Partial record field with value undefined is
modelled as an entry whose value is none. -/

structure Schema where
  safeParse : Json → Except Json Json

structure SegItemSchema where
  safeParse : Json → Except Json String

structure QuerySchema where
  safeParse : Json → Except Json (List (String × Option (List String)))

structure HeadersSchema where
  safeParse : Json → Except Json (List (String × Option String))

/-- Parse the items of a zod tuple pairwise. The diagnostic content of
errors is abstracted (the first failing item reports). -/
def parseSegs : List SegItemSchema → List Json → Except Json (List String)
  | [], [] => .ok []
  | i :: is, x :: xs =>
    match i.safeParse x with
    | .error e => .error e
    | .ok s =>
      match parseSegs is xs with
      | .error e => .error e
      | .ok rest => .ok (s :: rest)
  | _, _ => .error (Json.str "tuple length mismatch")

/-- safeParse of a zod tuple schema with no rest element: the input must
be an array of exactly the declared length and every item must parse. -/
def tupleSafeParse (items : List SegItemSchema) (v : Json) : Except Json (List String) :=
  match v with
  | .arr xs =>
    if xs.length = items.length then parseSegs items xs
    else .error (Json.str "invalid tuple length")
  | _ => .error (Json.str "expected array")

/-! ### Endpoint definition (shared/endpoint.ts) -/

inductive Method where
  | get | post | put | del | patch
deriving DecidableEq

def methodStr : Method → String
  | .get => "get"
  | .post => "post"
  | .put => "put"
  | .del => "delete"
  | .patch => "patch"

structure Endpoint where
  method : Method
  path : String
  response : Schema
  bodySchema : Option Schema
  querySchema : Option QuerySchema
  headersSchema : Option HeadersSchema
  additionalPaths : Option (List SegItemSchema)

/-! ### Server dispatch engine (class ZonoHttpServer)

The Hono/Bun runtime is external; a request reaches the endpoint handler
as: the concrete request path (ctx.req.path), the decoded JSON body
(ctx.req.json(), which rejects when the payload is not valid JSON;
modelled as none), the ordered list of raw query parameters from the
query string, and the header record (keys lowercased by the runtime). -/

structure Request where
  path : String
  /-- Result of ctx.req.json(): none models a payload that is not valid
  JSON, for which the promise rejects (the rejection propagates to the
  caller of parseBody). -/
  jsonBody : Option Json
  queryParams : List (String × String)
  headers : List (String × String)

structure FailResponse where
  status : Nat
  error : String
  zodError : Option Json

/-- Return type of the four parse helpers
(ZonoHttpServerParseHelperReturn). -/
inductive ParseRet (α : Type) where
  | valid (data : Option α)
  | invalid (response : FailResponse)

structure HttpResponse where
  status : Nat
  body : Json

structure Converters where
  query : Option (Json → Json)
  headers : Option (Json → Json)

/-- Apply an optional converter to the raw wire value before schema
validation. -/
def convApply (conv : Option (Json → Json)) (raw : Json) : Json :=
  match conv with
  | some f => f raw
  | none => raw

/-- Per-endpoint handler options; the obfuscate field is an optional
boolean key as in the TypeScript record (none models an absent key). -/
structure HandlerOpts where
  obfuscate : Option Bool

/-- The merged options used by createEndpointHandler: the spread
of globalHandlerOpts then specificHandlerOpts for the endpoint, read as
a truthy flag. -/
def obfuscateOf (globalOpts specificOpts : Option HandlerOpts) : Bool :=
  (((specificOpts.bind (·.obfuscate)).orElse
    (fun _ => globalOpts.bind (·.obfuscate))).getD false)

/-- Group the raw query parameters into the record returned by
ctx.req.queries(): keys in first-appearance order, each mapped to all of
its values in query-string order. -/
def honoQueries (params : List (String × String)) : List (String × List String) :=
  let keys := params.foldl (fun acc p => if p.1 ∈ acc then acc else acc ++ [p.1]) []
  keys.map (fun k => (k, (params.filter (fun p => decide (p.1 = k))).map (·.2)))

def queriesToJson (qs : List (String × List String)) : Json :=
  Json.obj (qs.map (fun p => (p.1, Json.arr (p.2.map Json.str))))

def headersToJson (hs : List (String × String)) : Json :=
  Json.obj (hs.map (fun p => (p.1, Json.str p.2)))

/-- The segment extraction of ZonoHttpServer.parseAdditionalPath: strip
the basePath and the endpoint path from the request path (each by a
first-occurrence replace), split on "/" and drop the first piece. -/
def extractPathParts (basePath : Option String) (ep : Endpoint) (reqPath : String) :
    List String :=
  let removeApiBase :=
    match basePath with
    | some bp => jsReplaceFirst reqPath bp
    | none => reqPath
  let removeEndpointBase := jsReplaceFirst removeApiBase ep.path
  (jsSplitSlash removeEndpointBase).drop 1

/-- ZonoHttpServer.parseAdditionalPath: extract the trailing segments of
the request path and validate them with the additionalPaths tuple
schema. -/
def parseAdditionalPath (basePath : Option String) (ep : Endpoint) (obf : Bool)
    (reqPath : String) : ParseRet (List String) :=
  match ep.additionalPaths with
  | none => .valid none
  | some items =>
    match tupleSafeParse items (Json.arr ((extractPathParts basePath ep reqPath).map Json.str)) with
    | .error e =>
      .invalid ⟨400, "Invalid path", if obf then none else some e⟩
    | .ok vals => .valid (some vals)

/-- ZonoHttpServer.parseBody. The call to ctx.req.json() rejects when the
payload is not valid JSON; the rejection escapes parseBody (modelled by
the Except layer) and is only caught by the try/catch of
createEndpointHandler. -/
def parseBody (ep : Endpoint) (obf : Bool) (jsonBody : Option Json) :
    Except Unit (ParseRet Json) :=
  match ep.bodySchema with
  | none => .ok (.valid none)
  | some schema =>
    match jsonBody with
    | none => .error ()
    | some body =>
      match schema.safeParse body with
      | .error e =>
        .ok (.invalid ⟨400, "Invalid body", if obf then none else some e⟩)
      | .ok d => .ok (.valid (some d))

/-- ZonoHttpServer.parseQuery: the grouped multi-value query record,
optionally pre-processed by the converter, validated by the query
schema. -/
def parseQuery (ep : Endpoint) (conv : Option (Json → Json)) (obf : Bool)
    (queryParams : List (String × String)) : ParseRet (List (String × Option (List String))) :=
  match ep.querySchema with
  | none => .valid none
  | some schema =>
    match schema.safeParse (convApply conv (queriesToJson (honoQueries queryParams))) with
    | .error e =>
      .invalid ⟨400, "Invalid query parameters", if obf then none else some e⟩
    | .ok d => .valid (some d)

/-- ZonoHttpServer.parseHeaders: the lowercased header record, optionally
pre-processed by the converter, validated by the headers schema. -/
def parseHeaders (ep : Endpoint) (conv : Option (Json → Json)) (obf : Bool)
    (headers : List (String × String)) : ParseRet (List (String × Option String)) :=
  match ep.headersSchema with
  | none => .valid none
  | some schema =>
    match schema.safeParse (convApply conv (headersToJson headers)) with
    | .error e =>
      .invalid ⟨400, "Invalid headers", if obf then none else some e⟩
    | .ok d => .valid (some d)

/-- The value the bound handler receives: the parsed data of each
declared channel, with the output type declared for that channel; a
channel the definition omits contributes no value (its parse helper
returns valid with no data). -/
structure HandlerInput where
  body : Option Json
  query : Option (List (String × Option (List String)))
  headers : Option (List (String × Option String))
  additionalPaths : Option (List String)

/-- Handler result: success with a 2xx status and response data, or
failure with an error string and optional zod diagnostic. -/
inductive HandlerOutput where
  | ok (status : Nat) (data : Json)
  | fail (status : Nat) (error : String) (zodError : Option Json)

/-- ZonoHttpServer.jsonResponseFail: ctx.json of the picked error and
zodError fields (a JSON-undefined field is dropped by serialization). -/
def jsonResponseFail (r : FailResponse) : HttpResponse :=
  ⟨r.status,
    Json.obj ([("error", Json.str r.error)] ++
      (match r.zodError with
       | some e => [("zodError", e)]
       | none => []))⟩

/-- ZonoHttpServer.jsonResponseSuccess: ctx.json of the data with the
handler status. -/
def jsonResponseSuccess (status : Nat) (data : Json) : HttpResponse :=
  ⟨status, data⟩

/-- ZonoHttpServer.createEndpointHandler: validate the declared channels
in the order additional paths, body, query, headers, short-circuiting on
the first invalid result; then invoke the bound handler on the parsed
data and serialize its result. A rejection of ctx.req.json() during body
extraction is caught by the surrounding try/catch, which responds 500
with a generic error. -/
def createEndpointHandler (basePath : Option String) (ep : Endpoint) (conv : Converters)
    (globalOpts specificOpts : Option HandlerOpts)
    (handler : HandlerInput → HandlerOutput) (req : Request) : HttpResponse :=
  let obf := obfuscateOf globalOpts specificOpts
  match parseAdditionalPath basePath ep obf req.path with
  | .invalid r => jsonResponseFail r
  | .valid pathData =>
    match parseBody ep obf req.jsonBody with
    | .error _ => jsonResponseFail ⟨500, "Internal server error", none⟩
    | .ok (.invalid r) => jsonResponseFail r
    | .ok (.valid bodyData) =>
      match parseQuery ep conv.query obf req.queryParams with
      | .invalid r => jsonResponseFail r
      | .valid queryData =>
        match parseHeaders ep conv.headers obf req.headers with
        | .invalid r => jsonResponseFail r
        | .valid headerData =>
          match handler ⟨bodyData, queryData, headerData, pathData⟩ with
          | .fail s e z => jsonResponseFail ⟨s, e, z⟩
          | .ok s d => jsonResponseSuccess s d

/-! ### Route derivation and registration (ZonoHttpServer.getPath / start) -/

/-- ZonoHttpServer.getPath: basePath plus endpoint path plus one
positional placeholder per additionalPaths tuple item. -/
def getPath (basePath : Option String) (ep : Endpoint) : String :=
  let base := (basePath.getD "") ++ ep.path
  match ep.additionalPaths with
  | none => base
  | some items =>
    (List.range items.length).foldl (fun acc i => acc ++ "/:" ++ toString i) base

/-- The collision key built in start: the method followed by the derived
route with placeholders. -/
def coveredPath (basePath : Option String) (ep : Endpoint) : String :=
  methodStr ep.method ++ " " ++ getPath basePath ep

/-- The registration loop of start: register each endpoint in order,
throwing when the covered path of an endpoint was already seen. Returns
the registered covered paths. -/
def registerLoop (basePath : Option String) :
    List (String × Endpoint) → List String → Except String (List String)
  | [], seen => .ok seen
  | (_, ep) :: rest, seen =>
    let cp := coveredPath basePath ep
    if cp ∈ seen then .error ("Path " ++ cp ++ " is already covered")
    else registerLoop basePath rest (seen ++ [cp])

/-- The running Bun server handle; constructed by serve only after every
endpoint registered without a collision. -/
structure ServerHandle where
  registeredRoutes : List String

/-- ZonoHttpServer.start: run the registration loop over the endpoint
record in insertion order; any collision throws before serve is reached,
so the listener is created and bound only when all covered paths are
distinct. -/
def startHttp (basePath : Option String) (endpoints : List (String × Endpoint)) :
    Except String ServerHandle :=
  match registerLoop basePath endpoints [] with
  | .error msg => .error msg
  | .ok routes => .ok ⟨routes⟩

/-! ### Client invocation engine (class ZonoEndpointClient)

The parseAsync calls of the client throw on invalid caller input; the
throw is modelled by the Except layer, carrying the zod error. -/

/-- The URL produced by parseCallOptsInputUrl: the path part of the URL
string and the appended search parameters in order. -/
structure ClientUrl where
  path : String
  searchParams : List (String × String)

/-- The query-string append loop of parseCallOptsInputUrl: for each key
of the parsed query object, skip an undefined value, otherwise append
one search parameter per array element in order. -/
def appendQueryParams (entries : List (String × Option (List String))) :
    List (String × String) :=
  entries.foldl
    (fun acc p =>
      match p.2 with
      | none => acc
      | some vs => vs.foldl (fun a v => a ++ [(p.1, v)]) acc)
    []

/-- ZonoEndpointClient.parseCallOptsInputUrl: the URL string starts as
baseUrl plus the endpoint path; each parsed additionalPaths element is
appended as a slash-separated segment; then each parsed query array
value is appended as a search parameter. -/
def parseCallOptsInputUrl (baseUrl : String) (ep : Endpoint)
    (pathsInput queryInput : Json) : Except Json ClientUrl :=
  match
    (match ep.additionalPaths with
     | none => Except.ok (baseUrl ++ ep.path)
     | some items =>
       match tupleSafeParse items pathsInput with
       | .error e => Except.error e
       | .ok vals => Except.ok (vals.foldl (fun acc v => acc ++ "/" ++ v) (baseUrl ++ ep.path)))
  with
  | .error e => .error e
  | .ok urlStr =>
    match ep.querySchema with
    | none => .ok ⟨urlStr, []⟩
    | some qs =>
      match qs.safeParse queryInput with
      | .error e => .error e
      | .ok entries => .ok ⟨urlStr, appendQueryParams entries⟩

/-- The header-merge loop of parseCallOptsInputHeaders: assign each
parsed field into the outbound record, skipping undefined values. -/
def applyHeaderFields (acc : List (String × String))
    (fields : List (String × Option String)) : List (String × String) :=
  fields.foldl
    (fun a p =>
      match p.2 with
      | none => a
      | some v => setKey a p.1 v)
    acc

/-- ZonoEndpointClient.parseCallOptsInputHeaders: start from the
Content-Type entry when a body is present, assign the parsed endpoint
header fields, then assign the parsed global/middleware header fields
over them. -/
def parseCallOptsInputHeaders (ep : Endpoint) (middlewareHeaders : Option HeadersSchema)
    (headersInput middlewareInput : Json) (parsedBody : Option Json) :
    Except Json (List (String × String)) :=
  let base : List (String × String) :=
    match parsedBody with
    | some _ => [("Content-Type", "application/json")]
    | none => []
  match
    (match ep.headersSchema with
     | none => Except.ok base
     | some hs =>
       match hs.safeParse headersInput with
       | .error e => Except.error e
       | .ok fields => Except.ok (applyHeaderFields base fields))
  with
  | .error e => .error e
  | .ok r1 =>
    match middlewareHeaders with
    | none => .ok r1
    | some hs =>
      match hs.safeParse middlewareInput with
      | .error e => .error e
      | .ok fields => .ok (applyHeaderFields r1 fields)

/-- combineHeadersSchema (internal_util/combine_headers_schema.ts):
merge the shapes of the given object schemas into one shape by object
assignment in array order, so an entry of a higher-index schema
overwrites the entry of a lower-index schema for the same key; all-absent
input yields no combined schema. Entry schemas are carried opaquely. -/
def combineHeadersSchema {α : Type} (schemas : List (Option (List (String × α)))) :
    Option (List (String × α)) :=
  let step := schemas.foldl
    (fun (acc : List (String × α) × Bool) s =>
      match s with
      | none => acc
      | some shape => (assignList acc.1 shape, true))
    ([], false)
  if step.2 then some step.1 else none

/-! ### Client response interpretation (fetch / axios paths) -/

/-- The transport response as consumed by the client: the status code and
the decoded JSON body (the jsonBody accessor of the transport
interface). -/
structure FetchResponse where
  status : Nat
  jsonData : Json

/-- Response.ok of the fetch API: status in the inclusive range 200 to
299. -/
def respOk (r : FetchResponse) : Bool :=
  decide (200 ≤ r.status) && decide (r.status ≤ 299)

/-- The tagged outcome of a client call: success carries the typed data
and the raw response; failure carries the raw response and, for a
response-schema mismatch, the structured validation error. The call
never throws: every case is returned as a value. -/
inductive FetchOutcome where
  | success (data : Json) (resp : FetchResponse)
  | failure (zodError : Option Json) (resp : FetchResponse)

/-- ZonoEndpointClient.parseFetchResponse: decode the JSON body and
validate it against the response schema. -/
def parseFetchResponse (ep : Endpoint) (r : FetchResponse) : FetchOutcome :=
  match ep.response.safeParse r.jsonData with
  | .error e => .failure (some e) r
  | .ok d => .success d r

/-- ZonoEndpointClient.fetch, after the transport returned: a non-ok
response is returned as a tagged failure with no schema validation;
otherwise the response is interpreted by parseFetchResponse. -/
def fetchCall (ep : Endpoint) (r : FetchResponse) : FetchOutcome :=
  if respOk r then parseFetchResponse ep r
  else .failure none r

/-- ZonoEndpointClient.parseAxiosResponse: identical interpretation on
the axios transport. -/
def parseAxiosResponse (ep : Endpoint) (r : FetchResponse) : FetchOutcome :=
  match ep.response.safeParse r.jsonData with
  | .error e => .failure (some e) r
  | .ok d => .success d r

/-- ZonoEndpointClient.axios, after the transport returned: a status
outside the 2xx range is returned as a tagged failure with no schema
validation; otherwise the response is interpreted by
parseAxiosResponse. -/
def axiosCall (ep : Endpoint) (r : FetchResponse) : FetchOutcome :=
  if r.status < 200 ∨ 300 ≤ r.status then .failure none r
  else parseAxiosResponse ep r

/-! ### Socket contract layer -/

/-- The observable effect of the ZonoSocketServer catch-all listener on
one inbound message: drop it silently, log the schema failure and drop
it, or invoke the bound handler with the parsed payload. No constructor
closes the session or reports an error to the peer, because the source
listener has no such effect. -/
inductive SocketAction where
  | ignored
  | loggedDrop
  | handled (data : Json)

/-- The socket.onAny listener installed by the ZonoSocketServer
constructor: look up the bound handler, then the clientEvents schema;
missing handler or missing schema drops the message; a schema failure is
logged and dropped; a validated payload is passed to the handler. -/
def socketServerReceive (hasHandler : String → Bool)
    (clientEvents : List (String × Schema)) (event : String) (data : Json) :
    SocketAction :=
  if hasHandler event = false then .ignored
  else
    match lookupKey clientEvents event with
    | none => .ignored
    | some schema =>
      match schema.safeParse data with
      | .error _ => .loggedDrop
      | .ok parsed => .handled parsed

/-- State of a ZonoSocketClient: the serverEvents schemas, the one-shot
listeners attached directly to the underlying socket session by
listen("once", ...), and the persistent handler map filled by
listen("on", ...), keyed by event then listener id. -/
structure SocketClientModel where
  serverEvents : List (String × Schema)
  onceListeners : List (String × Nat)
  persistentHandlers : List (String × List Nat)

/-- ZonoSocketClient.listen with type "once": the listener is attached
directly to the underlying socket and the handler map is untouched. -/
def listenOnce (m : SocketClientModel) (ev : String) (fnId : Nat) : SocketClientModel :=
  { m with onceListeners := m.onceListeners ++ [(ev, fnId)] }

/-- ZonoSocketClient.listen with type "on": a fresh id is inserted into
the handler map for the event. -/
def listenOn (m : SocketClientModel) (ev : String) (fnId : Nat) : SocketClientModel :=
  { m with
    persistentHandlers :=
      match lookupKey m.persistentHandlers ev with
      | none => m.persistentHandlers ++ [(ev, [fnId])]
      | some ids => setKey m.persistentHandlers ev (ids ++ [fnId]) }

/-- The socket.onAny listener installed by the ZonoSocketClient
constructor: when the event has a nonempty persistent handler set and a
serverEvents schema, a validated payload is dispatched to every
persistent handler; a missing schema or a schema failure dispatches
nothing. Returns the (listener id, delivered payload) invocations. -/
def socketClientOnAny (m : SocketClientModel) (event : String) (data : Json) :
    List (Nat × Json) :=
  match lookupKey m.persistentHandlers event with
  | none => []
  | some ids =>
    if ids.isEmpty then []
    else
      match lookupKey m.serverEvents event with
      | none => []
      | some schema =>
        match schema.safeParse data with
        | .error _ => []
        | .ok parsed => ids.map (fun i => (i, parsed))

/-- Modelled from the spec: delivery of one inbound named message by the
socket transport session (section 6 collaborator interface). The session
invokes every event-specific listener registered on it with the raw
payload, and the catch-all listener of the client; the one-shot
listeners of the client are event-specific socket listeners, so they
receive the raw payload, while persistent handlers are reached only
through the validating catch-all. Returns the (listener id, delivered
payload) invocations. -/
def socketDeliver (m : SocketClientModel) (event : String) (data : Json) :
    List (Nat × Json) :=
  ((m.onceListeners.filter (fun p => decide (p.1 = event))).map (fun p => (p.2, data)))
    ++ socketClientOnAny m event data

/-! ### Lemmas about the JavaScript string operations -/

theorem toList_append (s t : String) : (s ++ t).toList = s.toList ++ t.toList := rfl

theorem toList_asStringChars (l : Chars) : l.asString.toList = l := rfl

theorem leadsWith_append (l t : Chars) : leadsWith (l ++ t) l = true := by
  induction l with
  | nil => cases t <;> rfl
  | cons c rest ih => simp [leadsWith, ih]

theorem removeFirstOcc_of_leading {s pat : Chars} (h : leadsWith s pat = true) :
    removeFirstOcc s pat = s.drop pat.length := by
  cases s with
  | nil =>
    cases pat with
    | nil => rfl
    | cons p ps => simp [leadsWith] at h
  | cons c rest => simp [removeFirstOcc, h]

theorem removeFirstOcc_append (pre suf : Chars) :
    removeFirstOcc (pre ++ suf) pre = suf := by
  rw [removeFirstOcc_of_leading (leadsWith_append pre suf)]
  exact List.drop_left pre suf

theorem splitOnSlash_cons {rest : Chars} {g : Chars} {gs : List Chars} (v : Chars)
    (hv : '/' ∉ v) (h : splitOnSlash rest = g :: gs) :
    splitOnSlash (v ++ rest) = (v ++ g) :: gs := by
  induction v with
  | nil => simpa using h
  | cons c v ih =>
    have hc : c ≠ '/' := fun hc => hv (hc ▸ List.mem_cons_self c v)
    have hv2 : '/' ∉ v := fun hm => hv (List.mem_cons_of_mem c hm)
    simp only [List.cons_append, splitOnSlash, if_neg hc]
    rw [List.append_eq, ih hv2]

/-- The concatenation of one leading slash plus segment per value, as
produced by the append loop of the client URL builder. -/
def joinSegsChars (vals : List String) : Chars :=
  vals.flatMap (fun v => '/' :: v.toList)

theorem splitOnSlash_joinSegs (vals : List String)
    (h : ∀ v ∈ vals, '/' ∉ v.toList) :
    splitOnSlash (joinSegsChars vals) = [] :: vals.map String.toList := by
  induction vals with
  | nil => rfl
  | cons v vs ih =>
    have hv : '/' ∉ v.toList := h v (List.mem_cons_self v vs)
    have hvs : ∀ w ∈ vs, '/' ∉ w.toList := fun w hw => h w (List.mem_cons_of_mem v hw)
    have step : joinSegsChars (v :: vs) = [] ++ ('/' :: (v.toList ++ joinSegsChars vs)) := by
      simp [joinSegsChars]
    rw [step]
    simp only [List.nil_append, splitOnSlash, if_pos rfl]
    rw [splitOnSlash_cons v.toList hv (ih hvs)]
    simp

theorem foldl_slash_toList (vals : List String) (acc : String) :
    (vals.foldl (fun a v => a ++ "/" ++ v) acc).toList = acc.toList ++ joinSegsChars vals := by
  induction vals generalizing acc with
  | nil => simp [joinSegsChars]
  | cons v vs ih =>
    rw [List.foldl_cons, ih]
    simp [joinSegsChars, toList_append]

/-! ### Lemmas about tuple schema parsing -/

theorem parseSegs_ok_length {items : List SegItemSchema} {xs : List Json}
    {vals : List String} (h : parseSegs items xs = .ok vals) :
    vals.length = items.length := by
  induction items generalizing xs vals with
  | nil =>
    cases xs with
    | nil => simp [parseSegs] at h; simp [← h]
    | cons x xs => simp [parseSegs] at h
  | cons i is ih =>
    cases xs with
    | nil => simp [parseSegs] at h
    | cons x xs =>
      simp only [parseSegs] at h
      cases hx : i.safeParse x with
      | error e => rw [hx] at h; exact absurd h (by simp)
      | ok s =>
        rw [hx] at h
        cases hr : parseSegs is xs with
        | error e => rw [hr] at h; exact absurd h (by simp)
        | ok rest =>
          rw [hr] at h
          simp only [Except.ok.injEq] at h
          subst h
          simp [ih hr]

theorem tupleSafeParse_ok_length {items : List SegItemSchema} {v : Json}
    {vals : List String} (h : tupleSafeParse items v = .ok vals) :
    vals.length = items.length := by
  cases v with
  | arr xs =>
    simp only [tupleSafeParse] at h
    by_cases hl : xs.length = items.length
    · rw [if_pos hl] at h; exact parseSegs_ok_length h
    · rw [if_neg hl] at h; exact absurd h (by simp)
  | null => exact absurd h (by simp [tupleSafeParse])
  | bool b => exact absurd h (by simp [tupleSafeParse])
  | num n => exact absurd h (by simp [tupleSafeParse])
  | str s => exact absurd h (by simp [tupleSafeParse])
  | obj fs => exact absurd h (by simp [tupleSafeParse])

theorem parseSegs_reparse {items : List SegItemSchema} {vals : List String}
    (hlen : vals.length = items.length)
    (hrt : ∀ p ∈ items.zip vals, p.1.safeParse (Json.str p.2) = .ok p.2) :
    parseSegs items (vals.map Json.str) = .ok vals := by
  induction items generalizing vals with
  | nil =>
    cases vals with
    | nil => rfl
    | cons v vs => simp at hlen
  | cons i is ih =>
    cases vals with
    | nil => simp at hlen
    | cons v vs =>
      have hhead : i.safeParse (Json.str v) = .ok v :=
        hrt (i, v) (by simp [List.zip_cons_cons])
      have htail : ∀ p ∈ is.zip vs, p.1.safeParse (Json.str p.2) = .ok p.2 :=
        fun p hp => hrt p (by simp [List.zip_cons_cons, hp])
      have hlen2 : vs.length = is.length := by simpa using hlen
      simp [parseSegs, hhead, ih hlen2 htail]

theorem tupleSafeParse_reparse {items : List SegItemSchema} {vals : List String}
    (hlen : vals.length = items.length)
    (hrt : ∀ p ∈ items.zip vals, p.1.safeParse (Json.str p.2) = .ok p.2) :
    tupleSafeParse items (Json.arr (vals.map Json.str)) = .ok vals := by
  simp only [tupleSafeParse, List.length_map]
  rw [if_pos hlen]
  exact parseSegs_reparse hlen hrt

/-! ### Round trip of the additional path segments -/

/-- The string the client URL-builder loop appends after
baseUrl plus the endpoint path. -/
def joinSegsString (vals : List String) : String :=
  vals.foldl (fun a v => a ++ "/" ++ v) ""

theorem joinSegsString_toList (vals : List String) :
    (joinSegsString vals).toList = joinSegsChars vals := by
  simpa using foldl_slash_toList vals ""

theorem map_asString_toList (vals : List String) :
    vals.map (List.asString ∘ String.toList) = vals := by
  induction vals with
  | nil => rfl
  | cons v vs ih =>
    simp only [List.map_cons, ih, Function.comp_apply, String.asString_toList]

/-- Server-side segment extraction undoes the client-side segment
append: stripping basePath and the endpoint path, splitting on "/" and
dropping the leading empty piece recovers exactly the appended segments,
provided no segment contains a slash. -/
theorem extractPathParts_roundtrip (bp : Option String) (ep : Endpoint)
    {vals : List String} (hns : ∀ v ∈ vals, '/' ∉ v.toList) :
    extractPathParts bp ep ((bp.getD "") ++ ep.path ++ joinSegsString vals) = vals := by
  have hstrip :
      (match bp with
       | some b => jsReplaceFirst ((bp.getD "") ++ ep.path ++ joinSegsString vals) b
       | none => (bp.getD "") ++ ep.path ++ joinSegsString vals)
      = (ep.path ++ joinSegsString vals : String) := by
    cases bp with
    | none => simp
    | some b =>
      show (removeFirstOcc ((b ++ ep.path ++ joinSegsString vals)).toList b.toList).asString
        = ep.path ++ joinSegsString vals
      have : ((b ++ ep.path ++ joinSegsString vals)).toList
          = b.toList ++ (ep.path ++ joinSegsString vals).toList := by
        rw [String.append_assoc, toList_append]
      rw [this, removeFirstOcc_append]
      exact String.asString_toList _
  have hstrip2 : jsReplaceFirst (ep.path ++ joinSegsString vals) ep.path
      = (joinSegsString vals).toList.asString := by
    show (removeFirstOcc ((ep.path ++ joinSegsString vals)).toList ep.path.toList).asString = _
    rw [toList_append, removeFirstOcc_append]
  have hsplit : jsSplitSlash ((joinSegsString vals).toList.asString) = "" :: vals := by
    show (splitOnSlash ((joinSegsString vals).toList.asString).toList).map List.asString
      = "" :: vals
    rw [List.toList_asString, joinSegsString_toList, splitOnSlash_joinSegs vals hns]
    simp only [List.map_cons, List.map_map]
    rw [map_asString_toList]
    rfl
  simp only [extractPathParts, hstrip, hstrip2, hsplit]
  simp only [List.drop_succ_cons, List.drop_zero]

/-- Revalidating the extracted segments with the tuple schema reproduces
the client-side parsed values, given the round-trip invariant of the
data model. -/
theorem parseAdditionalPath_roundtrip (bp : Option String) (ep : Endpoint)
    (obf : Bool) {items : List SegItemSchema} {vals : List String}
    (hitems : ep.additionalPaths = some items)
    (hlen : vals.length = items.length)
    (hrt : ∀ p ∈ items.zip vals, p.1.safeParse (Json.str p.2) = .ok p.2)
    (hns : ∀ v ∈ vals, '/' ∉ v.toList) :
    parseAdditionalPath bp ep obf ((bp.getD "") ++ ep.path ++ joinSegsString vals)
      = .valid (some vals) := by
  simp only [parseAdditionalPath, hitems, extractPathParts_roundtrip bp ep hns]
  rw [tupleSafeParse_reparse hlen hrt]

/-! ### Lemmas about object assignment and lookup -/

theorem lookupKey_append_of_not_hasKey {α : Type} {m : List (String × α)} {k : String}
    (h : hasKey m k = false) (v : α) :
    lookupKey (m ++ [(k, v)]) k = some v := by
  induction m with
  | nil => simp [lookupKey]
  | cons p rest ih =>
    simp only [hasKey, List.any_cons, Bool.or_eq_false_iff, decide_eq_false_iff_not] at h
    simp only [List.cons_append, lookupKey, if_neg h.1]
    exact ih (by simp [hasKey, h.2])

theorem lookupKey_map_update_self {α : Type} {m : List (String × α)} {k : String}
    (h : hasKey m k = true) (v : α) :
    lookupKey (m.map (fun p => if p.1 = k then (k, v) else p)) k = some v := by
  induction m with
  | nil => simp [hasKey] at h
  | cons p rest ih =>
    obtain ⟨pk, pv⟩ := p
    by_cases hp : pk = k
    · simp only [List.map_cons]
      rw [show (if (pk, pv).1 = k then (k, v) else (pk, pv)) = (k, v) from if_pos hp]
      simp [lookupKey]
    · have hr : hasKey rest k = true := by
        simp only [hasKey, List.any_cons, Bool.or_eq_true_iff, decide_eq_true_eq] at h
        rcases h with h | h
        · exact absurd h hp
        · exact h
      simp only [List.map_cons]
      rw [show (if (pk, pv).1 = k then (k, v) else (pk, pv)) = (pk, pv) from if_neg hp]
      simp only [lookupKey, if_neg hp]
      exact ih hr

theorem lookupKey_map_update_ne {α : Type} (m : List (String × α)) {k2 k : String}
    (v : α) (h : k2 ≠ k) :
    lookupKey (m.map (fun p => if p.1 = k2 then (k2, v) else p)) k = lookupKey m k := by
  induction m with
  | nil => rfl
  | cons p rest ih =>
    obtain ⟨pk, pv⟩ := p
    by_cases hp : pk = k2
    · have hpk : ¬ pk = k := fun hk => h (hp ▸ hk ▸ rfl)
      simp only [List.map_cons]
      rw [show (if (pk, pv).1 = k2 then (k2, v) else (pk, pv)) = (k2, v) from if_pos hp]
      simp only [lookupKey, if_neg h, if_neg hpk]
      exact ih
    · simp only [List.map_cons]
      rw [show (if (pk, pv).1 = k2 then (k2, v) else (pk, pv)) = (pk, pv) from if_neg hp]
      by_cases hpk : pk = k
      · simp [lookupKey, hpk]
      · simp only [lookupKey, if_neg hpk]
        exact ih

theorem lookupKey_append_single_ne {α : Type} (m : List (String × α)) {k2 k : String}
    (v : α) (h : k2 ≠ k) :
    lookupKey (m ++ [(k2, v)]) k = lookupKey m k := by
  induction m with
  | nil => simp [lookupKey, if_neg h]
  | cons p rest ih =>
    simp only [List.cons_append, lookupKey]
    by_cases hpk : p.1 = k
    · simp [hpk]
    · simp only [if_neg hpk]
      exact ih

theorem lookupKey_setKey_self {α : Type} (m : List (String × α)) (k : String) (v : α) :
    lookupKey (setKey m k v) k = some v := by
  unfold setKey
  by_cases h : hasKey m k = true
  · rw [if_pos h]
    exact lookupKey_map_update_self h v
  · rw [if_neg h]
    exact lookupKey_append_of_not_hasKey (Bool.eq_false_iff.mpr h) v

theorem lookupKey_setKey_ne {α : Type} (m : List (String × α)) {k2 k : String} (v : α)
    (h : k2 ≠ k) : lookupKey (setKey m k2 v) k = lookupKey m k := by
  unfold setKey
  by_cases hm : hasKey m k2 = true
  · rw [if_pos hm]
    exact lookupKey_map_update_ne m v h
  · rw [if_neg hm]
    exact lookupKey_append_single_ne m v h

/-! Lookups after folding field assignments (the client header merge and
the object spread of combineHeadersSchema). -/

theorem applyHeaderFields_cons (acc : List (String × String)) (pk : String)
    (pv : Option String) (rest : List (String × Option String)) :
    applyHeaderFields acc ((pk, pv) :: rest)
      = applyHeaderFields (match pv with | none => acc | some v => setKey acc pk v) rest :=
  rfl

theorem applyHeaderFields_lookup_notmem {fields : List (String × Option String)}
    {k : String} (h : k ∉ fields.map Prod.fst) (acc : List (String × String)) :
    lookupKey (applyHeaderFields acc fields) k = lookupKey acc k := by
  induction fields generalizing acc with
  | nil => rfl
  | cons p rest ih =>
    obtain ⟨pk, pv⟩ := p
    have hk : pk ≠ k := by
      intro he
      exact h (by simp [he.symm])
    have hrest : k ∉ rest.map Prod.fst := fun hm => h (by simp [hm])
    rw [applyHeaderFields_cons]
    cases pv with
    | none => exact ih hrest acc
    | some v =>
      rw [ih hrest]
      exact lookupKey_setKey_ne acc v hk

theorem applyHeaderFields_lookup_mem {fields : List (String × Option String)}
    {k : String} {v : String} (hnd : (fields.map Prod.fst).Nodup)
    (hmem : (k, some v) ∈ fields) (acc : List (String × String)) :
    lookupKey (applyHeaderFields acc fields) k = some v := by
  induction fields generalizing acc with
  | nil => simp at hmem
  | cons p rest ih =>
    obtain ⟨pk, pv⟩ := p
    rw [applyHeaderFields_cons]
    rcases List.mem_cons.mp hmem with hhead | htail
    · have hk : pk = k := (Prod.mk.injEq _ _ _ _ ▸ hhead.symm).1
      have hv : pv = some v := (Prod.mk.injEq _ _ _ _ ▸ hhead.symm).2
      have hrest : k ∉ rest.map Prod.fst := by
        have := (List.nodup_cons.mp hnd).1
        simpa [hk] using this
      subst hk hv
      rw [applyHeaderFields_lookup_notmem hrest]
      exact lookupKey_setKey_self acc pk v
    · have hnd2 : (rest.map Prod.fst).Nodup := (List.nodup_cons.mp hnd).2
      cases pv <;> exact ih hnd2 htail _

theorem assignList_cons {α : Type} (acc : List (String × α)) (pk : String) (pv : α)
    (rest : List (String × α)) :
    assignList acc ((pk, pv) :: rest) = assignList (setKey acc pk pv) rest :=
  rfl

theorem assignList_lookup_notmem {α : Type} {fields : List (String × α)}
    {k : String} (h : k ∉ fields.map Prod.fst) (acc : List (String × α)) :
    lookupKey (assignList acc fields) k = lookupKey acc k := by
  induction fields generalizing acc with
  | nil => rfl
  | cons p rest ih =>
    obtain ⟨pk, pv⟩ := p
    have hk : pk ≠ k := by
      intro he
      exact h (by simp [he.symm])
    have hrest : k ∉ rest.map Prod.fst := fun hm => h (by simp [hm])
    rw [assignList_cons, ih hrest]
    exact lookupKey_setKey_ne acc pv hk

theorem assignList_lookup_mem {α : Type} {fields : List (String × α)}
    {k : String} {v : α} (hnd : (fields.map Prod.fst).Nodup)
    (hmem : (k, v) ∈ fields) (acc : List (String × α)) :
    lookupKey (assignList acc fields) k = some v := by
  induction fields generalizing acc with
  | nil => simp at hmem
  | cons p rest ih =>
    obtain ⟨pk, pv⟩ := p
    rw [assignList_cons]
    rcases List.mem_cons.mp hmem with hhead | htail
    · have hk : pk = k := (Prod.mk.injEq _ _ _ _ ▸ hhead.symm).1
      have hv : pv = v := (Prod.mk.injEq _ _ _ _ ▸ hhead.symm).2
      have hrest : k ∉ rest.map Prod.fst := by
        have := (List.nodup_cons.mp hnd).1
        simpa [hk] using this
      subst hk hv
      rw [assignList_lookup_notmem hrest]
      exact lookupKey_setKey_self acc pk pv
    · have hnd2 : (rest.map Prod.fst).Nodup := (List.nodup_cons.mp hnd).2
      exact ih hnd2 htail _

/-! ### Lemmas about route registration -/

theorem registerLoop_ok_of_nodup (bp : Option String) :
    ∀ (eps : List (String × Endpoint)) (seen : List String),
      (seen ++ eps.map (fun p => coveredPath bp p.2)).Nodup →
      ∃ r, registerLoop bp eps seen = .ok r := by
  intro eps
  induction eps with
  | nil => intro seen _; exact ⟨seen, rfl⟩
  | cons e rest ih =>
    intro seen hnd
    obtain ⟨name, ep⟩ := e
    have hne : coveredPath bp ep ∉ seen := by
      intro hmem
      have hd := List.disjoint_of_nodup_append hnd
      exact hd hmem (by simp)
    have hnd2 : ((seen ++ [coveredPath bp ep]) ++ rest.map (fun p => coveredPath bp p.2)).Nodup := by
      rw [List.append_assoc]
      simpa using hnd
    obtain ⟨r, hr⟩ := ih (seen ++ [coveredPath bp ep]) hnd2
    refine ⟨r, ?_⟩
    simp only [registerLoop, if_neg hne]
    exact hr

theorem registerLoop_error (bp : Option String) :
    ∀ (eps : List (String × Endpoint)) (seen : List String),
      (¬ (eps.map (fun p => coveredPath bp p.2)).Nodup
        ∨ ∃ e ∈ eps, coveredPath bp e.2 ∈ seen) →
      ∃ msg, registerLoop bp eps seen = .error msg := by
  intro eps
  induction eps with
  | nil =>
    intro seen h
    rcases h with h | ⟨e, he, _⟩
    · exact absurd List.nodup_nil h
    · simp at he
  | cons e rest ih =>
    intro seen h
    obtain ⟨name, ep⟩ := e
    by_cases hmem : coveredPath bp ep ∈ seen
    · refine ⟨"Path " ++ coveredPath bp ep ++ " is already covered", ?_⟩
      simp [registerLoop, if_pos hmem]
    · have hnext : ¬ (rest.map (fun p => coveredPath bp p.2)).Nodup
          ∨ ∃ e2 ∈ rest, coveredPath bp e2.2 ∈ seen ++ [coveredPath bp ep] := by
        rcases h with h | ⟨e2, he2, hs⟩
        · rw [List.map_cons, List.nodup_cons] at h
          push_neg at h
          by_cases hin : coveredPath bp ep ∈ rest.map (fun p => coveredPath bp p.2)
          · rcases List.mem_map.mp hin with ⟨e2, he2, heq⟩
            exact Or.inr ⟨e2, he2, by simp [heq]⟩
          · exact Or.inl (h hin)
        · rcases List.mem_cons.mp he2 with rfl | he2
          · exact absurd hs hmem
          · exact Or.inr ⟨e2, he2, by simp [hs]⟩
      obtain ⟨msg, hmsg⟩ := ih (seen ++ [coveredPath bp ep]) hnext
      refine ⟨msg, ?_⟩
      simp only [registerLoop, if_neg hmem]
      exact hmsg

/-! ### Short-circuit behavior of createEndpointHandler -/

theorem ceh_path_invalid {bp : Option String} {ep : Endpoint} {cv : Converters}
    {g s : Option HandlerOpts} {req : Request} {r : FailResponse}
    (h1 : parseAdditionalPath bp ep (obfuscateOf g s) req.path = .invalid r)
    (handler : HandlerInput → HandlerOutput) :
    createEndpointHandler bp ep cv g s handler req = jsonResponseFail r := by
  simp only [createEndpointHandler, h1]

theorem ceh_body_throws {bp : Option String} {ep : Endpoint} {cv : Converters}
    {g s : Option HandlerOpts} {req : Request} {pd : Option (List String)}
    (h1 : parseAdditionalPath bp ep (obfuscateOf g s) req.path = .valid pd)
    (h2 : parseBody ep (obfuscateOf g s) req.jsonBody = .error ())
    (handler : HandlerInput → HandlerOutput) :
    createEndpointHandler bp ep cv g s handler req
      = jsonResponseFail ⟨500, "Internal server error", none⟩ := by
  simp only [createEndpointHandler, h1, h2]

theorem ceh_body_invalid {bp : Option String} {ep : Endpoint} {cv : Converters}
    {g s : Option HandlerOpts} {req : Request} {pd : Option (List String)}
    {r : FailResponse}
    (h1 : parseAdditionalPath bp ep (obfuscateOf g s) req.path = .valid pd)
    (h2 : parseBody ep (obfuscateOf g s) req.jsonBody = .ok (.invalid r))
    (handler : HandlerInput → HandlerOutput) :
    createEndpointHandler bp ep cv g s handler req = jsonResponseFail r := by
  simp only [createEndpointHandler, h1, h2]

theorem ceh_query_invalid {bp : Option String} {ep : Endpoint} {cv : Converters}
    {g s : Option HandlerOpts} {req : Request} {pd : Option (List String)}
    {bd : Option Json} {r : FailResponse}
    (h1 : parseAdditionalPath bp ep (obfuscateOf g s) req.path = .valid pd)
    (h2 : parseBody ep (obfuscateOf g s) req.jsonBody = .ok (.valid bd))
    (h3 : parseQuery ep cv.query (obfuscateOf g s) req.queryParams = .invalid r)
    (handler : HandlerInput → HandlerOutput) :
    createEndpointHandler bp ep cv g s handler req = jsonResponseFail r := by
  simp only [createEndpointHandler, h1, h2, h3]

theorem ceh_headers_invalid {bp : Option String} {ep : Endpoint} {cv : Converters}
    {g s : Option HandlerOpts} {req : Request} {pd : Option (List String)}
    {bd : Option Json} {qd : Option (List (String × Option (List String)))}
    {r : FailResponse}
    (h1 : parseAdditionalPath bp ep (obfuscateOf g s) req.path = .valid pd)
    (h2 : parseBody ep (obfuscateOf g s) req.jsonBody = .ok (.valid bd))
    (h3 : parseQuery ep cv.query (obfuscateOf g s) req.queryParams = .valid qd)
    (h4 : parseHeaders ep cv.headers (obfuscateOf g s) req.headers = .invalid r)
    (handler : HandlerInput → HandlerOutput) :
    createEndpointHandler bp ep cv g s handler req = jsonResponseFail r := by
  simp only [createEndpointHandler, h1, h2, h3, h4]

theorem ceh_all_valid {bp : Option String} {ep : Endpoint} {cv : Converters}
    {g s : Option HandlerOpts} {req : Request} {pd : Option (List String)}
    {bd : Option Json} {qd : Option (List (String × Option (List String)))}
    {hd : Option (List (String × Option String))}
    (h1 : parseAdditionalPath bp ep (obfuscateOf g s) req.path = .valid pd)
    (h2 : parseBody ep (obfuscateOf g s) req.jsonBody = .ok (.valid bd))
    (h3 : parseQuery ep cv.query (obfuscateOf g s) req.queryParams = .valid qd)
    (h4 : parseHeaders ep cv.headers (obfuscateOf g s) req.headers = .valid hd)
    (handler : HandlerInput → HandlerOutput) :
    createEndpointHandler bp ep cv g s handler req
      = (match handler ⟨bd, qd, hd, pd⟩ with
         | .fail st e z => jsonResponseFail ⟨st, e, z⟩
         | .ok st d => jsonResponseSuccess st d) := by
  simp only [createEndpointHandler, h1, h2, h3, h4]

/-! ### Concrete fixtures used by witnesses -/

/-- A schema accepting any JSON value unchanged. -/
def idSchema : Schema := ⟨fun v => .ok v⟩

/-- A schema accepting exactly JSON strings. -/
def strSchema : Schema :=
  ⟨fun v =>
    match v with
    | .str s => .ok (.str s)
    | _ => .error (.str "expected string")⟩

/-- A string-enum item schema, as used for additionalPaths segments. -/
def segEnum (names : List String) : SegItemSchema :=
  ⟨fun v =>
    match v with
    | .str s => if s ∈ names then .ok s else .error (.str "invalid enum value")
    | _ => .error (.str "expected string")⟩

/-- Endpoint fixture with two enum path segments (the end-to-end
scenario of the spec). -/
def epPeople : Endpoint :=
  { method := .get
    path := "/people"
    response := idSchema
    bodySchema := none
    querySchema := none
    headersSchema := none
    additionalPaths := some [segEnum ["Bob", "Douglas", "Jeremy"],
                             segEnum ["Smith", "Jones", "Williams"]] }

/-- Endpoint fixture declaring only a body channel. -/
def epBodyOnly : Endpoint :=
  { method := .post
    path := "/items"
    response := idSchema
    bodySchema := some strSchema
    querySchema := none
    headersSchema := none
    additionalPaths := none }

def cvNone : Converters := ⟨none, none⟩

/-- A handler that always succeeds with status 200 and a null body. -/
def hAlways : HandlerInput → HandlerOutput := fun _ => .ok 200 Json.null

theorem foldl_slash_eq (vals : List String) (acc : String) :
    vals.foldl (fun a v => a ++ "/" ++ v) acc = acc ++ joinSegsString vals := by
  apply String.toList_inj.mp
  rw [foldl_slash_toList, toList_append, joinSegsString_toList]

/-! ### Claim C1 -/

/-- C1: for an endpoint declaring additionalPaths of length N and a
tuple of N values accepted by that schema, the client URL builder
appends exactly the N parsed segments in order after the endpoint path,
and the server path extraction (stripping basePath and the endpoint
path, then splitting on "/") recovers exactly those N segments in the
same order, so validating them with the same tuple schema reproduces
the original typed values. The hypotheses are the data-model invariant
of the spec: every element revalidates to itself from its serialized
segment and serializes to a single path segment without slashes. -/
theorem claim_C1_additional_paths_roundtrip
    (baseUrl : String) (bp : Option String) (ep : Endpoint) (obf : Bool)
    (items : List SegItemSchema) (pathsInput : Json) (vals : List String)
    (hitems : ep.additionalPaths = some items)
    (hparse : tupleSafeParse items pathsInput = .ok vals)
    (hrt : ∀ p ∈ items.zip vals, p.1.safeParse (Json.str p.2) = .ok p.2)
    (hns : ∀ v ∈ vals, '/' ∉ v.toList) :
    (∀ (queryInput : Json) (u : ClientUrl),
        parseCallOptsInputUrl baseUrl ep pathsInput queryInput = .ok u →
        u.path = baseUrl ++ ep.path ++ joinSegsString vals)
    ∧ extractPathParts bp ep ((bp.getD "") ++ ep.path ++ joinSegsString vals) = vals
    ∧ parseAdditionalPath bp ep obf ((bp.getD "") ++ ep.path ++ joinSegsString vals)
        = .valid (some vals) := by
  have hlen : vals.length = items.length := tupleSafeParse_ok_length hparse
  refine ⟨?_, extractPathParts_roundtrip bp ep hns,
    parseAdditionalPath_roundtrip bp ep obf hitems hlen hrt hns⟩
  intro queryInput u hu
  simp only [parseCallOptsInputUrl, hitems, hparse] at hu
  rw [foldl_slash_eq] at hu
  cases hq : ep.querySchema with
  | none =>
    rw [hq] at hu
    simp only [Except.ok.injEq] at hu
    rw [← hu]
  | some qs =>
    rw [hq] at hu
    cases hqp : qs.safeParse queryInput with
    | error e => simp [hqp] at hu
    | ok entries =>
      simp only [hqp, Except.ok.injEq] at hu
      rw [← hu]

/-- C1 witness: the spec end-to-end scenario with segments Bob and
Williams, built by the client and recovered by the server. -/
theorem claim_C1_witness :
    extractPathParts (some "/api") epPeople
        ("/api" ++ epPeople.path ++ joinSegsString ["Bob", "Williams"]) = ["Bob", "Williams"]
    ∧ parseAdditionalPath (some "/api") epPeople false
        ("/api" ++ epPeople.path ++ joinSegsString ["Bob", "Williams"])
      = .valid (some ["Bob", "Williams"]) := by
  have hrt : ∀ p ∈ (epPeople.additionalPaths.getD []).zip ["Bob", "Williams"],
      p.1.safeParse (Json.str p.2) = .ok p.2 := by
    intro p hp
    have hz : (epPeople.additionalPaths.getD []).zip ["Bob", "Williams"]
        = [(segEnum ["Bob", "Douglas", "Jeremy"], "Bob"),
           (segEnum ["Smith", "Jones", "Williams"], "Williams")] := rfl
    rw [hz] at hp
    rcases List.mem_cons.mp hp with rfl | hp
    · rfl
    rcases List.mem_cons.mp hp with rfl | hp
    · rfl
    · simp at hp
  have h := claim_C1_additional_paths_roundtrip "http://h" (some "/api") epPeople false
    (epPeople.additionalPaths.getD []) (Json.arr [Json.str "Bob", Json.str "Williams"])
    ["Bob", "Williams"] rfl rfl hrt (by decide)
  exact ⟨h.2.1, h.2.2⟩

/-! ### Claim C2 -/

/-- C2: the server validates the declared channels strictly in the order
additional path segments, body, query, headers; at the first failing
channel it responds with that channel 400 failure and the response does
not depend on the later channels of the request nor on the handler (so
no later channel is validated and the handler is not invoked); the
bound handler is invoked exactly when every declared channel validated,
receiving the parsed values of the declared channels, and a channel the
definition omits contributes no value to the handler input. -/
theorem claim_C2_dispatch_order (bp : Option String) (ep : Endpoint) (cv : Converters)
    (g s : Option HandlerOpts) (handler : HandlerInput → HandlerOutput) (req : Request) :
    (∀ r, parseAdditionalPath bp ep (obfuscateOf g s) req.path = .invalid r →
      ∀ (h2 : HandlerInput → HandlerOutput) (req2 : Request), req2.path = req.path →
        createEndpointHandler bp ep cv g s h2 req2 = jsonResponseFail r)
    ∧ (∀ pd r, parseAdditionalPath bp ep (obfuscateOf g s) req.path = .valid pd →
        parseBody ep (obfuscateOf g s) req.jsonBody = .ok (.invalid r) →
        ∀ (h2 : HandlerInput → HandlerOutput) (req2 : Request),
          req2.path = req.path → req2.jsonBody = req.jsonBody →
          createEndpointHandler bp ep cv g s h2 req2 = jsonResponseFail r)
    ∧ (∀ pd bd r, parseAdditionalPath bp ep (obfuscateOf g s) req.path = .valid pd →
        parseBody ep (obfuscateOf g s) req.jsonBody = .ok (.valid bd) →
        parseQuery ep cv.query (obfuscateOf g s) req.queryParams = .invalid r →
        ∀ (h2 : HandlerInput → HandlerOutput) (req2 : Request),
          req2.path = req.path → req2.jsonBody = req.jsonBody →
          req2.queryParams = req.queryParams →
          createEndpointHandler bp ep cv g s h2 req2 = jsonResponseFail r)
    ∧ (∀ pd bd qd r, parseAdditionalPath bp ep (obfuscateOf g s) req.path = .valid pd →
        parseBody ep (obfuscateOf g s) req.jsonBody = .ok (.valid bd) →
        parseQuery ep cv.query (obfuscateOf g s) req.queryParams = .valid qd →
        parseHeaders ep cv.headers (obfuscateOf g s) req.headers = .invalid r →
        createEndpointHandler bp ep cv g s handler req = jsonResponseFail r)
    ∧ (∀ pd bd qd hd, parseAdditionalPath bp ep (obfuscateOf g s) req.path = .valid pd →
        parseBody ep (obfuscateOf g s) req.jsonBody = .ok (.valid bd) →
        parseQuery ep cv.query (obfuscateOf g s) req.queryParams = .valid qd →
        parseHeaders ep cv.headers (obfuscateOf g s) req.headers = .valid hd →
        createEndpointHandler bp ep cv g s handler req
          = (match handler ⟨bd, qd, hd, pd⟩ with
             | .fail st e z => jsonResponseFail ⟨st, e, z⟩
             | .ok st d => jsonResponseSuccess st d))
    ∧ ((ep.additionalPaths = none →
          parseAdditionalPath bp ep (obfuscateOf g s) req.path = .valid none)
       ∧ (ep.bodySchema = none →
          parseBody ep (obfuscateOf g s) req.jsonBody = .ok (.valid none))
       ∧ (ep.querySchema = none →
          parseQuery ep cv.query (obfuscateOf g s) req.queryParams = .valid none)
       ∧ (ep.headersSchema = none →
          parseHeaders ep cv.headers (obfuscateOf g s) req.headers = .valid none)) := by
  refine ⟨?_, ?_, ?_, ?_, ?_, ?_, ?_, ?_, ?_⟩
  · intro r h1 h2 req2 hp
    exact ceh_path_invalid (hp ▸ h1) h2
  · intro pd r h1 hb h2 req2 hp hj
    exact ceh_body_invalid (hp ▸ h1) (hj ▸ hb) h2
  · intro pd bd r h1 hb hq h2 req2 hp hj hqp
    exact ceh_query_invalid (hp ▸ h1) (hj ▸ hb) (hqp ▸ hq) h2
  · intro pd bd qd r h1 hb hq hh
    exact ceh_headers_invalid h1 hb hq hh handler
  · intro pd bd qd hd h1 hb hq hh
    exact ceh_all_valid h1 hb hq hh handler
  · intro h; simp [parseAdditionalPath, h]
  · intro h; simp [parseBody, h]
  · intro h; simp [parseQuery, h]
  · intro h; simp [parseHeaders, h]

/-- C2 witness: a request whose declared body fails validation is
answered with the body 400 failure for every handler and every request
agreeing on path and body, and a valid request reaches the handler with
the parsed body and no values for the omitted channels. -/
theorem claim_C2_witness :
    createEndpointHandler none epBodyOnly cvNone none none hAlways
        ⟨"/items", some (Json.num 3), [], []⟩
      = jsonResponseFail ⟨400, "Invalid body", some (Json.str "expected string")⟩
    ∧ createEndpointHandler none epBodyOnly cvNone none none hAlways
        ⟨"/items", some (Json.str "ok"), [], []⟩
      = jsonResponseSuccess 200 Json.null := by
  constructor
  · exact (claim_C2_dispatch_order none epBodyOnly cvNone none none hAlways
      ⟨"/items", some (Json.num 3), [], []⟩).2.1 none
      ⟨400, "Invalid body", some (Json.str "expected string")⟩ rfl rfl hAlways
      ⟨"/items", some (Json.num 3), [], []⟩ rfl rfl
  · exact (claim_C2_dispatch_order none epBodyOnly cvNone none none hAlways
      ⟨"/items", some (Json.str "ok"), [], []⟩).2.2.2.2.1 none (some (Json.str "ok"))
      none none rfl rfl rfl rfl

/-! ### Claim C3 -/

/-- Endpoint fixture whose headers schema produces the auth entry with
value ep for any caller input. -/
def epHeaderClash : Endpoint :=
  { method := .get
    path := "/h"
    response := idSchema
    bodySchema := none
    querySchema := none
    headersSchema := some ⟨fun _ => .ok [("auth", some "ep")]⟩
    additionalPaths := none }

/-- A global/middleware headers schema producing the auth entry with
value mw for any caller input. -/
def mwHeaderClash : HeadersSchema := ⟨fun _ => .ok [("auth", some "mw")]⟩

/-- C3 counterexample: with an endpoint schema entry and a
global/middleware schema entry for the same key auth, the outbound
header map carries the global/middleware value, not the endpoint value,
so the claim that the endpoint-specific entry wins the collision is
false on this input. -/
theorem claim_C3_counterexample :
    parseCallOptsInputHeaders epHeaderClash (some mwHeaderClash) Json.null Json.null none
      = .ok [("auth", "mw")] ∧ "mw" ≠ "ep" :=
  ⟨rfl, by decide⟩

/-- C3 amended: on a key collision between the endpoint headers schema
and the global/middleware headers schema, the global/middleware entry
wins: the client merges the endpoint header fields first and then
assigns the global/middleware fields over them, and the shape-level
merge of combineHeadersSchema likewise lets the higher-index
(global) schema overwrite the endpoint entry for a shared key. -/
theorem claim_C3_amended (ep : Endpoint) (mw : HeadersSchema)
    (headersInput middlewareInput : Json) (parsedBody : Option Json)
    (hs : HeadersSchema) (fields1 fields2 : List (String × Option String))
    (k v : String)
    (hep : ep.headersSchema = some hs)
    (h1 : hs.safeParse headersInput = .ok fields1)
    (h2 : mw.safeParse middlewareInput = .ok fields2)
    (hnd : (fields2.map Prod.fst).Nodup)
    (hmem : (k, some v) ∈ fields2) :
    (∃ result,
        parseCallOptsInputHeaders ep (some mw) headersInput middlewareInput parsedBody
          = .ok result
        ∧ lookupKey result k = some v)
    ∧ (∀ (α : Type) (sh1 sh2 : List (String × α)) (k2 : String) (v2 : α),
        (sh2.map Prod.fst).Nodup → (k2, v2) ∈ sh2 →
        ∃ out, combineHeadersSchema [some sh1, some sh2] = some out
          ∧ lookupKey out k2 = some v2) := by
  constructor
  · refine ⟨applyHeaderFields (applyHeaderFields
      (match parsedBody with
       | some _ => [("Content-Type", "application/json")]
       | none => []) fields1) fields2, ?_, ?_⟩
    · simp only [parseCallOptsInputHeaders, hep, h1, h2]
    · exact applyHeaderFields_lookup_mem hnd hmem _
  · intro α sh1 sh2 k2 v2 hnd2 hmem2
    refine ⟨assignList (assignList [] sh1) sh2, ?_, ?_⟩
    · simp [combineHeadersSchema]
    · exact assignList_lookup_mem hnd2 hmem2 _

/-- C3 amended witness: concrete colliding schemas; the merged outbound
map and the merged shape both carry the global/middleware entry. -/
theorem claim_C3_amended_witness :
    (∃ result,
        parseCallOptsInputHeaders epHeaderClash (some mwHeaderClash) Json.null Json.null none
          = .ok result
        ∧ lookupKey result "auth" = some "mw")
    ∧ (∃ out, combineHeadersSchema [some [("auth", 1)], some [("auth", 2)]] = some out
        ∧ lookupKey out "auth" = some 2) := by
  have h := claim_C3_amended epHeaderClash mwHeaderClash Json.null Json.null none
    ⟨fun _ => .ok [("auth", some "ep")]⟩ [("auth", some "ep")] [("auth", some "mw")]
    "auth" "mw" rfl rfl rfl (by decide) (by decide)
  exact ⟨h.1, h.2 Nat [("auth", 1)] [("auth", 2)] "auth" 2 (by decide) (by decide)⟩

/-! ### Claim C4 -/

/-- C4: a non-success transport status is returned as a tagged failure
carrying the raw response, and the outcome is then the same for every
response schema (no response-schema validation is attempted); on a
success status the JSON body is validated against the response schema,
a validation failure yielding a tagged failure carrying the raw
response and the structured validation error, and a validation success
yielding a tagged success carrying the typed data and the raw response.
Both transport paths (fetch and axios) behave this way, and being total
functions into the tagged outcome type they never throw. -/
theorem claim_C4_tagged_response (ep : Endpoint) (r : FetchResponse) :
    (respOk r = false →
      fetchCall ep r = .failure none r
        ∧ ∀ ep2 : Endpoint, fetchCall ep2 r = .failure none r)
    ∧ (respOk r = true →
      (∀ e, ep.response.safeParse r.jsonData = .error e →
        fetchCall ep r = .failure (some e) r)
      ∧ (∀ d, ep.response.safeParse r.jsonData = .ok d →
        fetchCall ep r = .success d r))
    ∧ ((r.status < 200 ∨ 300 ≤ r.status) →
      axiosCall ep r = .failure none r
        ∧ ∀ ep2 : Endpoint, axiosCall ep2 r = .failure none r)
    ∧ (¬ (r.status < 200 ∨ 300 ≤ r.status) →
      (∀ e, ep.response.safeParse r.jsonData = .error e →
        axiosCall ep r = .failure (some e) r)
      ∧ (∀ d, ep.response.safeParse r.jsonData = .ok d →
        axiosCall ep r = .success d r)) := by
  refine ⟨?_, ?_, ?_, ?_⟩
  · intro h
    exact ⟨by simp [fetchCall, h], fun ep2 => by simp [fetchCall, h]⟩
  · intro h
    exact ⟨fun e he => by simp [fetchCall, h, parseFetchResponse, he],
      fun d hd => by simp [fetchCall, h, parseFetchResponse, hd]⟩
  · intro h
    exact ⟨by simp [axiosCall, h], fun ep2 => by simp [axiosCall, h]⟩
  · intro h
    exact ⟨fun e he => by simp [axiosCall, h, parseAxiosResponse, he],
      fun d hd => by simp [axiosCall, h, parseAxiosResponse, hd]⟩

/-- Endpoint fixture whose response schema accepts exactly strings. -/
def epStrictResp : Endpoint :=
  { method := .get
    path := "/r"
    response := strSchema
    bodySchema := none
    querySchema := none
    headersSchema := none
    additionalPaths := none }

/-- C4 witness: a 500 transport response comes back as a tagged failure
with no diagnostic on both transports, and a 200 response whose body
fails the response schema comes back as a tagged failure carrying the
structured error. -/
theorem claim_C4_witness :
    fetchCall epStrictResp ⟨500, Json.null⟩ = .failure none ⟨500, Json.null⟩
    ∧ axiosCall epStrictResp ⟨500, Json.null⟩ = .failure none ⟨500, Json.null⟩
    ∧ fetchCall epStrictResp ⟨200, Json.num 7⟩
        = .failure (some (Json.str "expected string")) ⟨200, Json.num 7⟩ := by
  refine ⟨((claim_C4_tagged_response epStrictResp ⟨500, Json.null⟩).1 (by decide)).1,
    ((claim_C4_tagged_response epStrictResp ⟨500, Json.null⟩).2.2.1 (by decide)).1,
    ((claim_C4_tagged_response epStrictResp ⟨200, Json.num 7⟩).2.1 (by decide)).1
      (Json.str "expected string") rfl⟩

/-! ### Claim C5 -/

/-- C5: when two endpoints of the registry normalize to the same
(method, route-with-placeholders) covered path, start throws before the
listener handle is ever constructed (startHttp yields an error and no
ServerHandle); when the covered paths are pairwise distinct, no
registration error is raised and the listener is created. -/
theorem claim_C5_route_collision (bp : Option String) (eps : List (String × Endpoint)) :
    ((∃ i j : Fin eps.length, i ≠ j
        ∧ coveredPath bp (eps.get i).2 = coveredPath bp (eps.get j).2) →
      ∃ msg, startHttp bp eps = .error msg)
    ∧ ((eps.map (fun p => coveredPath bp p.2)).Nodup →
      ∃ handle, startHttp bp eps = .ok handle) := by
  constructor
  · rintro ⟨i, j, hij, hcp⟩
    have hnot : ¬ (eps.map (fun p => coveredPath bp p.2)).Nodup := by
      intro hnd
      have hi : (i : Nat) < (eps.map (fun p => coveredPath bp p.2)).length := by
        simp [i.isLt]
      have hj : (j : Nat) < (eps.map (fun p => coveredPath bp p.2)).length := by
        simp [j.isLt]
      have hgi : (eps.map (fun p => coveredPath bp p.2))[(i : Nat)]
          = coveredPath bp (eps.get i).2 := by
        simp [List.getElem_map]
      have hgj : (eps.map (fun p => coveredPath bp p.2))[(j : Nat)]
          = coveredPath bp (eps.get j).2 := by
        simp [List.getElem_map]
      have heq : (eps.map (fun p => coveredPath bp p.2))[(i : Nat)]
          = (eps.map (fun p => coveredPath bp p.2))[(j : Nat)] := by
        rw [hgi, hgj, hcp]
      have := (hnd.getElem_inj_iff).mp heq
      exact hij (Fin.ext this)
    obtain ⟨msg, hmsg⟩ := registerLoop_error bp eps [] (Or.inl hnot)
    exact ⟨msg, by simp [startHttp, hmsg]⟩
  · intro hnd
    obtain ⟨r, hr⟩ := registerLoop_ok_of_nodup bp eps [] (by simpa using hnd)
    exact ⟨⟨r⟩, by simp [startHttp, hr]⟩

/-- C5 witness: registering the same endpoint under two names collides
and startHttp errors; a single registration starts the listener. -/
theorem claim_C5_witness :
    (∃ msg, startHttp none [("a", epPeople), ("b", epPeople)] = .error msg)
    ∧ (∃ handle, startHttp none [("a", epPeople), ("b", epBodyOnly)] = .ok handle) := by
  constructor
  · exact (claim_C5_route_collision none [("a", epPeople), ("b", epPeople)]).1
      ⟨⟨0, by decide⟩, ⟨1, by decide⟩, by decide, rfl⟩
  · refine (claim_C5_route_collision none [("a", epPeople), ("b", epBodyOnly)]).2 ?_
    have : ([("a", epPeople), ("b", epBodyOnly)].map
        (fun p => coveredPath none p.2)) = ["get /people/:0/:1", "post /items"] := rfl
    rw [this]
    decide

/-! ### Claim C6 -/

/-- C6 counterexample: a request to an endpoint declaring a body whose
payload cannot be parsed as JSON (the ctx.req.json() promise rejects) is
answered with status 500 and the generic internal error body, because
the rejection escapes parseBody and is only caught by the catch-all of
createEndpointHandler; the claim required status 400 with kind
Invalid body. -/
theorem claim_C6_counterexample :
    createEndpointHandler none epBodyOnly cvNone none none hAlways
        ⟨"/items", none, [], []⟩
      = ⟨500, Json.obj [("error", Json.str "Internal server error")]⟩
    ∧ (createEndpointHandler none epBodyOnly cvNone none none hAlways
        ⟨"/items", none, [], []⟩).status ≠ 400 :=
  ⟨rfl, by decide⟩

/-- C6 amended: a request payload that cannot be parsed as JSON is
answered with status 500 and the generic internal error (the json()
rejection reaches the catch-all), while a parseable payload that fails
the body schema is answered with status 400 and kind Invalid body. -/
theorem claim_C6_amended (bp : Option String) (ep : Endpoint) (cv : Converters)
    (g s : Option HandlerOpts) (handler : HandlerInput → HandlerOutput) (req : Request)
    (schema : Schema) (hb : ep.bodySchema = some schema) :
    (∀ pd, req.jsonBody = none →
      parseAdditionalPath bp ep (obfuscateOf g s) req.path = .valid pd →
      createEndpointHandler bp ep cv g s handler req
        = ⟨500, Json.obj [("error", Json.str "Internal server error")]⟩)
    ∧ (∀ pd b e, req.jsonBody = some b → schema.safeParse b = .error e →
      parseAdditionalPath bp ep (obfuscateOf g s) req.path = .valid pd →
      createEndpointHandler bp ep cv g s handler req
        = jsonResponseFail
            ⟨400, "Invalid body", if obfuscateOf g s then none else some e⟩) := by
  constructor
  · intro pd hjson hpath
    have hthrow : parseBody ep (obfuscateOf g s) req.jsonBody = .error () := by
      simp [parseBody, hb, hjson]
    rw [ceh_body_throws hpath hthrow handler]
    rfl
  · intro pd b e hjson herr hpath
    have hinv : parseBody ep (obfuscateOf g s) req.jsonBody
        = .ok (.invalid ⟨400, "Invalid body",
            if obfuscateOf g s then none else some e⟩) := by
      simp [parseBody, hb, hjson, herr]
    exact ceh_body_invalid hpath hinv handler

/-- C6 amended witness: on the concrete body-only endpoint, a
non-JSON payload yields the 500 internal error and a JSON payload of
the wrong shape yields the 400 Invalid body failure. -/
theorem claim_C6_amended_witness :
    createEndpointHandler none epBodyOnly cvNone none none hAlways
        ⟨"/items", none, [("q", "1")], []⟩
      = ⟨500, Json.obj [("error", Json.str "Internal server error")]⟩
    ∧ createEndpointHandler none epBodyOnly cvNone none none hAlways
        ⟨"/items", some (Json.bool true), [], []⟩
      = jsonResponseFail ⟨400, "Invalid body", some (Json.str "expected string")⟩ := by
  constructor
  · exact (claim_C6_amended none epBodyOnly cvNone none none hAlways
      ⟨"/items", none, [("q", "1")], []⟩ strSchema rfl).1 none rfl rfl
  · exact (claim_C6_amended none epBodyOnly cvNone none none hAlways
      ⟨"/items", some (Json.bool true), [], []⟩ strSchema rfl).2 none (Json.bool true)
      (Json.str "expected string") rfl rfl rfl

/-! ### Claim C7 -/

/-- C7: an inbound socket message whose event name has no bound handler
or no clientEvents schema invokes no handler and is dropped silently
(no log, and the SocketAction type records every effect of the listener,
none of which reports an error to the peer or closes the session); a
known event whose payload fails its schema is logged and dropped
without invoking the handler; a payload that validates is passed to the
bound handler in parsed form. -/
theorem claim_C7_socket_server_receive (hasHandler : String → Bool)
    (clientEvents : List (String × Schema)) (event : String) (data : Json) :
    ((hasHandler event = false ∨ lookupKey clientEvents event = none) →
      socketServerReceive hasHandler clientEvents event data = .ignored)
    ∧ (∀ schema e, hasHandler event = true →
        lookupKey clientEvents event = some schema →
        schema.safeParse data = .error e →
        socketServerReceive hasHandler clientEvents event data = .loggedDrop)
    ∧ (∀ schema d, hasHandler event = true →
        lookupKey clientEvents event = some schema →
        schema.safeParse data = .ok d →
        socketServerReceive hasHandler clientEvents event data = .handled d) := by
  refine ⟨?_, ?_, ?_⟩
  · rintro (h | h)
    · simp [socketServerReceive, h]
    · cases hh : hasHandler event with
      | false => simp [socketServerReceive, hh]
      | true => simp [socketServerReceive, hh, h]
  · intro schema e hh hl he
    simp [socketServerReceive, hh, hl, he]
  · intro schema d hh hl hd
    simp [socketServerReceive, hh, hl, hd]

/-- C7 witness: with one registered event msg expecting a string
payload, an unregistered event is ignored, an invalid msg payload is
logged and dropped, and a valid one reaches the handler parsed. -/
theorem claim_C7_witness :
    socketServerReceive (fun e => decide (e = "msg")) [("msg", strSchema)] "other" Json.null
      = .ignored
    ∧ socketServerReceive (fun e => decide (e = "msg")) [("msg", strSchema)] "msg" (Json.num 3)
      = .loggedDrop
    ∧ socketServerReceive (fun e => decide (e = "msg")) [("msg", strSchema)] "msg"
        (Json.str "hi") = .handled (Json.str "hi") := by
  refine ⟨(claim_C7_socket_server_receive (fun e => decide (e = "msg"))
      [("msg", strSchema)] "other" Json.null).1 (Or.inl (by decide)),
    (claim_C7_socket_server_receive (fun e => decide (e = "msg"))
      [("msg", strSchema)] "msg" (Json.num 3)).2.1 strSchema (Json.str "expected string")
      (by decide) rfl rfl,
    (claim_C7_socket_server_receive (fun e => decide (e = "msg"))
      [("msg", strSchema)] "msg" (Json.str "hi")).2.2 strSchema (Json.str "hi")
      (by decide) rfl rfl⟩

/-! ### Claim C10 -/

/-- C10: a one-shot listener registered with listen("once", ...) is
attached directly to the underlying socket and receives the raw inbound
payload on delivery, with no validation against the serverEvents schema
(in particular a payload that fails the schema still reaches it), while
every invocation produced by the validating catch-all path that serves
persistent listen("on", ...) handlers carries a payload that passed the
schema of the event. -/
theorem claim_C10_once_unvalidated (m : SocketClientModel) (ev : String)
    (fnId : Nat) (data : Json) :
    ((fnId, data) ∈ socketDeliver (listenOnce m ev fnId) ev data)
    ∧ (∀ i p, (i, p) ∈ socketClientOnAny m ev data →
      ∃ schema parsed, lookupKey m.serverEvents ev = some schema
        ∧ schema.safeParse data = .ok parsed ∧ p = parsed)
    ∧ (∀ schema e, lookupKey m.serverEvents ev = some schema →
      schema.safeParse data = .error e →
      socketClientOnAny m ev data = []
        ∧ (fnId, data) ∈ socketDeliver (listenOnce m ev fnId) ev data) := by
  have honce : (fnId, data) ∈ socketDeliver (listenOnce m ev fnId) ev data := by
    refine List.mem_append_left _ (List.mem_map.mpr ⟨(ev, fnId), ?_, rfl⟩)
    rw [List.mem_filter]
    exact ⟨by simp [listenOnce], by simp⟩
  refine ⟨honce, ?_, ?_⟩
  · intro i p hip
    unfold socketClientOnAny at hip
    cases hl : lookupKey m.persistentHandlers ev with
    | none => simp [hl] at hip
    | some ids =>
      simp only [hl] at hip
      by_cases hemp : ids.isEmpty
      · rw [if_pos hemp] at hip; simp at hip
      · rw [if_neg hemp] at hip
        cases hs : lookupKey m.serverEvents ev with
        | none => simp [hs] at hip
        | some schema =>
          simp only [hs] at hip
          cases hp : schema.safeParse data with
          | error e => simp [hp] at hip
          | ok parsed =>
            simp only [hp] at hip
            rcases List.mem_map.mp hip with ⟨i2, _, heq⟩
            exact ⟨schema, parsed, rfl, hp, (Prod.ext_iff.mp heq).2.symm⟩
  · intro schema e hs he
    refine ⟨?_, honce⟩
    unfold socketClientOnAny
    cases hl : lookupKey m.persistentHandlers ev with
    | none => simp [hl]
    | some ids =>
      simp only [hl]
      by_cases hemp : ids.isEmpty
      · rw [if_pos hemp]
      · rw [if_neg hemp]
        simp only [hs, he]

/-- C10 witness: on a client with one persistent handler for evt, a
payload failing the string schema still reaches a freshly registered
one-shot listener raw, while the persistent path dispatches nothing. -/
theorem claim_C10_witness :
    ((5, Json.num 3) ∈ socketDeliver
        (listenOnce ⟨[("evt", strSchema)], [], [("evt", [7])]⟩ "evt" 5) "evt" (Json.num 3))
    ∧ socketClientOnAny ⟨[("evt", strSchema)], [], [("evt", [7])]⟩ "evt" (Json.num 3) = [] := by
  have h := claim_C10_once_unvalidated ⟨[("evt", strSchema)], [], [("evt", [7])]⟩
    "evt" 5 (Json.num 3)
  exact ⟨h.1, (h.2.2 strSchema (Json.str "expected string") rfl rfl).1⟩

/-! ### Claim C8 -/

/-- C8: for a request whose first failing declared channel is the path,
body, query or headers channel, the 400 response carries the error kind
of that channel, and it contains the structured zodError diagnostic
field exactly when the merged obfuscate flag (global spread over
per-endpoint options) is off: with obfuscation on, the body is the
error kind alone. The prior channels are assumed valid (independently
of the flag), matching the short-circuit order. -/
theorem claim_C8_obfuscation (bp : Option String) (ep : Endpoint) (cv : Converters)
    (g s : Option HandlerOpts) (handler : HandlerInput → HandlerOutput) (req : Request) :
    (∀ items e, ep.additionalPaths = some items →
      tupleSafeParse items
          (Json.arr ((extractPathParts bp ep req.path).map Json.str)) = .error e →
      (obfuscateOf g s = true →
        createEndpointHandler bp ep cv g s handler req
          = ⟨400, Json.obj [("error", Json.str "Invalid path")]⟩)
      ∧ (obfuscateOf g s = false →
        createEndpointHandler bp ep cv g s handler req
          = ⟨400, Json.obj [("error", Json.str "Invalid path"), ("zodError", e)]⟩))
    ∧ (∀ schema b e, ep.bodySchema = some schema → req.jsonBody = some b →
      schema.safeParse b = .error e →
      (∀ ob : Bool, ∃ pd, parseAdditionalPath bp ep ob req.path = .valid pd) →
      (obfuscateOf g s = true →
        createEndpointHandler bp ep cv g s handler req
          = ⟨400, Json.obj [("error", Json.str "Invalid body")]⟩)
      ∧ (obfuscateOf g s = false →
        createEndpointHandler bp ep cv g s handler req
          = ⟨400, Json.obj [("error", Json.str "Invalid body"), ("zodError", e)]⟩))
    ∧ (∀ schema e, ep.querySchema = some schema →
      schema.safeParse (convApply cv.query (queriesToJson (honoQueries req.queryParams)))
        = .error e →
      (∀ ob : Bool, ∃ pd, parseAdditionalPath bp ep ob req.path = .valid pd) →
      (∀ ob : Bool, ∃ bd, parseBody ep ob req.jsonBody = .ok (.valid bd)) →
      (obfuscateOf g s = true →
        createEndpointHandler bp ep cv g s handler req
          = ⟨400, Json.obj [("error", Json.str "Invalid query parameters")]⟩)
      ∧ (obfuscateOf g s = false →
        createEndpointHandler bp ep cv g s handler req
          = ⟨400, Json.obj [("error", Json.str "Invalid query parameters"), ("zodError", e)]⟩))
    ∧ (∀ schema e, ep.headersSchema = some schema →
      schema.safeParse (convApply cv.headers (headersToJson req.headers)) = .error e →
      (∀ ob : Bool, ∃ pd, parseAdditionalPath bp ep ob req.path = .valid pd) →
      (∀ ob : Bool, ∃ bd, parseBody ep ob req.jsonBody = .ok (.valid bd)) →
      (∀ ob : Bool, ∃ qd, parseQuery ep cv.query ob req.queryParams = .valid qd) →
      (obfuscateOf g s = true →
        createEndpointHandler bp ep cv g s handler req
          = ⟨400, Json.obj [("error", Json.str "Invalid headers")]⟩)
      ∧ (obfuscateOf g s = false →
        createEndpointHandler bp ep cv g s handler req
          = ⟨400, Json.obj [("error", Json.str "Invalid headers"), ("zodError", e)]⟩)) := by
  refine ⟨?_, ?_, ?_, ?_⟩
  · intro items e hitems herr
    have hinv : ∀ ob : Bool, parseAdditionalPath bp ep ob req.path
        = .invalid ⟨400, "Invalid path", if ob then none else some e⟩ := by
      intro ob
      simp [parseAdditionalPath, hitems, herr]
    constructor
    · intro hobf
      rw [ceh_path_invalid (hinv (obfuscateOf g s)) handler]
      simp [jsonResponseFail, hobf]
    · intro hobf
      rw [ceh_path_invalid (hinv (obfuscateOf g s)) handler]
      simp [jsonResponseFail, hobf]
  · intro schema b e hschema hjson herr hpath
    obtain ⟨pd, hpd⟩ := hpath (obfuscateOf g s)
    have hinv : parseBody ep (obfuscateOf g s) req.jsonBody
        = .ok (.invalid ⟨400, "Invalid body",
            if obfuscateOf g s then none else some e⟩) := by
      simp [parseBody, hschema, hjson, herr]
    constructor
    · intro hobf
      rw [ceh_body_invalid hpd hinv handler]
      simp [jsonResponseFail, hobf]
    · intro hobf
      rw [ceh_body_invalid hpd hinv handler]
      simp [jsonResponseFail, hobf]
  · intro schema e hschema herr hpath hbody
    obtain ⟨pd, hpd⟩ := hpath (obfuscateOf g s)
    obtain ⟨bd, hbd⟩ := hbody (obfuscateOf g s)
    have hinv : parseQuery ep cv.query (obfuscateOf g s) req.queryParams
        = .invalid ⟨400, "Invalid query parameters",
            if obfuscateOf g s then none else some e⟩ := by
      simp [parseQuery, hschema, herr]
    constructor
    · intro hobf
      rw [ceh_query_invalid hpd hbd hinv handler]
      simp [jsonResponseFail, hobf]
    · intro hobf
      rw [ceh_query_invalid hpd hbd hinv handler]
      simp [jsonResponseFail, hobf]
  · intro schema e hschema herr hpath hbody hquery
    obtain ⟨pd, hpd⟩ := hpath (obfuscateOf g s)
    obtain ⟨bd, hbd⟩ := hbody (obfuscateOf g s)
    obtain ⟨qd, hqd⟩ := hquery (obfuscateOf g s)
    have hinv : parseHeaders ep cv.headers (obfuscateOf g s) req.headers
        = .invalid ⟨400, "Invalid headers",
            if obfuscateOf g s then none else some e⟩ := by
      simp [parseHeaders, hschema, herr]
    constructor
    · intro hobf
      rw [ceh_headers_invalid hpd hbd hqd hinv handler]
      simp [jsonResponseFail, hobf]
    · intro hobf
      rw [ceh_headers_invalid hpd hbd hqd hinv handler]
      simp [jsonResponseFail, hobf]

/-- C8 witness: the same failing body under a global obfuscate flag
yields the 400 body without the diagnostic field, and with the flag off
the diagnostic is included. -/
theorem claim_C8_witness :
    createEndpointHandler none epBodyOnly cvNone (some ⟨some true⟩) none hAlways
        ⟨"/items", some (Json.num 3), [], []⟩
      = ⟨400, Json.obj [("error", Json.str "Invalid body")]⟩
    ∧ createEndpointHandler none epBodyOnly cvNone none none hAlways
        ⟨"/items", some (Json.num 3), [], []⟩
      = ⟨400, Json.obj [("error", Json.str "Invalid body"),
          ("zodError", Json.str "expected string")]⟩ := by
  constructor
  · exact ((claim_C8_obfuscation none epBodyOnly cvNone (some ⟨some true⟩) none hAlways
      ⟨"/items", some (Json.num 3), [], []⟩).2.1 strSchema (Json.num 3)
      (Json.str "expected string") rfl rfl rfl (fun ob => ⟨none, rfl⟩)).1 rfl
  · exact ((claim_C8_obfuscation none epBodyOnly cvNone none none hAlways
      ⟨"/items", some (Json.num 3), [], []⟩).2.1 strSchema (Json.num 3)
      (Json.str "expected string") rfl rfl rfl (fun ob => ⟨none, rfl⟩)).2 rfl

/-! ### Claim C9 -/

/-- Recursive form of the client query-parameter append loop. -/
def emitEntries : List (String × Option (List String)) → List (String × String)
  | [] => []
  | (_, none) :: rest => emitEntries rest
  | (k, some vs) :: rest => vs.map (fun v => (k, v)) ++ emitEntries rest

theorem foldl_append_pairs (vs : List String) (k : String)
    (acc : List (String × String)) :
    vs.foldl (fun a v => a ++ [(k, v)]) acc = acc ++ vs.map (fun v => (k, v)) := by
  induction vs generalizing acc with
  | nil => simp
  | cons v rest ih =>
    rw [List.foldl_cons, ih]
    simp

theorem appendQueryParams_eq (entries : List (String × Option (List String))) :
    appendQueryParams entries = emitEntries entries := by
  have haux : ∀ (l : List (String × Option (List String))) (acc : List (String × String)),
      l.foldl (fun acc p =>
        match p.2 with
        | none => acc
        | some vs => vs.foldl (fun a v => a ++ [(p.1, v)]) acc) acc
        = acc ++ emitEntries l := by
    intro l
    induction l with
    | nil => intro acc; simp [emitEntries]
    | cons p rest ih =>
      intro acc
      obtain ⟨pk, pv⟩ := p
      cases pv with
      | none => rw [List.foldl_cons]; exact (ih acc).trans (by simp [emitEntries])
      | some vs =>
        rw [List.foldl_cons]
        show rest.foldl _ (vs.foldl (fun a v => a ++ [(pk, v)]) acc) = _
        rw [foldl_append_pairs, ih]
        simp [emitEntries]
  simpa [appendQueryParams] using haux entries []

theorem mem_emitEntries_fst {entries : List (String × Option (List String))}
    {p : String × String} (h : p ∈ emitEntries entries) :
    p.1 ∈ entries.map Prod.fst := by
  induction entries with
  | nil => simp [emitEntries] at h
  | cons q rest ih =>
    obtain ⟨qk, qv⟩ := q
    cases qv with
    | none =>
      simp only [emitEntries] at h
      simp [ih h]
    | some vs =>
      simp only [emitEntries] at h
      rcases List.mem_append.mp h with h | h
      · rcases List.mem_map.mp h with ⟨v, _, rfl⟩
        simp
      · simp [ih h]

theorem filter_emitEntries_nil {entries : List (String × Option (List String))}
    {k : String} (h : k ∉ entries.map Prod.fst) :
    (emitEntries entries).filter (fun p => decide (p.1 = k)) = [] := by
  rw [List.filter_eq_nil_iff]
  intro p hp
  simp only [decide_eq_true_eq]
  intro hk
  exact h (hk ▸ mem_emitEntries_fst hp)

theorem filter_emitEntries {entries : List (String × Option (List String))}
    {k : String} {vs : List String} (hnd : (entries.map Prod.fst).Nodup)
    (hmem : (k, some vs) ∈ entries) :
    (emitEntries entries).filter (fun p => decide (p.1 = k))
      = vs.map (fun v => (k, v)) := by
  induction entries with
  | nil => simp at hmem
  | cons q rest ih =>
    obtain ⟨qk, qv⟩ := q
    have hnd2 : (rest.map Prod.fst).Nodup := (List.nodup_cons.mp hnd).2
    rcases List.mem_cons.mp hmem with hhead | htail
    · have hk : qk = k := (Prod.ext_iff.mp hhead.symm).1
      have hv : qv = some vs := (Prod.ext_iff.mp hhead.symm).2
      subst hv
      subst hk
      have hrest : qk ∉ rest.map Prod.fst := by
        have := (List.nodup_cons.mp hnd).1
        simpa using this
      simp only [emitEntries, List.filter_append, filter_emitEntries_nil hrest,
        List.append_nil]
      rw [List.filter_eq_self]
      intro p hp
      rcases List.mem_map.mp hp with ⟨v, _, rfl⟩
      simp
    · have hkrest : k ∈ rest.map Prod.fst :=
        List.mem_map.mpr ⟨(k, some vs), htail, rfl⟩
      have hqk : qk ≠ k := by
        intro rfl2
        exact (List.nodup_cons.mp hnd).1 (rfl2 ▸ hkrest)
      cases qv with
      | none => simpa [emitEntries] using ih hnd2 htail
      | some vs2 =>
        simp only [emitEntries, List.filter_append]
        have hchunk : (vs2.map (fun v => (qk, v))).filter
            (fun p => decide (p.1 = k)) = [] := by
          rw [List.filter_eq_nil_iff]
          intro p hp
          rcases List.mem_map.mp hp with ⟨v, _, rfl⟩
          simpa using hqk
        rw [hchunk, ih hnd2 htail]
        simp

theorem lookupKey_map_of_keys {β : Type} (f : String → β) (l : List String) (k : String) :
    lookupKey (l.map (fun k2 => (k2, f k2))) k
      = if k ∈ l then some (f k) else none := by
  induction l with
  | nil => simp [lookupKey]
  | cons k1 rest ih =>
    simp only [List.map_cons, lookupKey]
    by_cases h1 : k1 = k
    · subst h1
      simp
    · rw [if_neg h1, ih]
      by_cases h2 : k ∈ rest
      · simp [h2, List.mem_cons]
      · have : k ∉ k1 :: rest := by
          intro hc
          rcases List.mem_cons.mp hc with rfl | hc
          · exact h1 rfl
          · exact h2 hc
        simp [h2, this]

theorem mem_dedupKeys (params : List (String × String)) (k : String) :
    ∀ acc : List String,
      (k ∈ params.foldl (fun acc p => if p.1 ∈ acc then acc else acc ++ [p.1]) acc)
        ↔ (k ∈ acc ∨ k ∈ params.map Prod.fst) := by
  induction params with
  | nil => intro acc; simp
  | cons p rest ih =>
    intro acc
    rw [List.foldl_cons, ih]
    have hstep : (k ∈ if p.1 ∈ acc then acc else acc ++ [p.1])
        ↔ (k ∈ acc ∨ k = p.1) := by
      by_cases hin : p.1 ∈ acc
      · rw [if_pos hin]
        constructor
        · exact Or.inl
        · rintro (h | rfl)
          · exact h
          · exact hin
      · rw [if_neg hin]
        simp [List.mem_append]
    rw [hstep]
    simp only [List.map_cons, List.mem_cons]
    tauto

theorem honoQueries_lookup (params : List (String × String)) (k : String)
    (hk : k ∈ params.map Prod.fst) :
    lookupKey (honoQueries params) k
      = some ((params.filter (fun p => decide (p.1 = k))).map (·.2)) := by
  unfold honoQueries
  rw [lookupKey_map_of_keys]
  rw [if_pos ((mem_dedupKeys params k []).mpr (Or.inr hk))]

/-- C9: for a parsed query object with a list-valued field, the client
emits one query parameter per list element under that key in list
order, and the server, collecting all repeated instances of the key
from the emitted query string (ctx.req.queries()), recovers exactly the
same list of values in the same order: the round trip preserves length
and order. -/
theorem claim_C9_query_roundtrip (entries : List (String × Option (List String)))
    (k : String) (vs : List String)
    (hnd : (entries.map Prod.fst).Nodup) (hmem : (k, some vs) ∈ entries) :
    (appendQueryParams entries).filter (fun p => decide (p.1 = k))
        = vs.map (fun v => (k, v))
    ∧ (vs ≠ [] →
      lookupKey (honoQueries (appendQueryParams entries)) k = some vs) := by
  have h1 : (appendQueryParams entries).filter (fun p => decide (p.1 = k))
      = vs.map (fun v => (k, v)) := by
    rw [appendQueryParams_eq]
    exact filter_emitEntries hnd hmem
  refine ⟨h1, ?_⟩
  intro hne
  have hk : k ∈ (appendQueryParams entries).map Prod.fst := by
    cases vs with
    | nil => exact absurd rfl hne
    | cons v vs2 =>
      have hmem2 : (k, v) ∈ (appendQueryParams entries).filter
          (fun p => decide (p.1 = k)) := by
        rw [h1]; simp
      exact List.mem_map.mpr ⟨(k, v), List.mem_of_mem_filter hmem2, rfl⟩
  rw [honoQueries_lookup _ _ hk, h1]
  simp [List.map_map, Function.comp_def]

/-- C9 witness: a two-element tags list round-trips through the emitted
query string and the grouped server-side collection. -/
theorem claim_C9_witness :
    (appendQueryParams [("tags", some ["a", "b"]), ("x", some ["1"])]).filter
        (fun p => decide (p.1 = "tags")) = [("tags", "a"), ("tags", "b")]
    ∧ lookupKey (honoQueries
        (appendQueryParams [("tags", some ["a", "b"]), ("x", some ["1"])])) "tags"
      = some ["a", "b"] := by
  have h := claim_C9_query_roundtrip [("tags", some ["a", "b"]), ("x", some ["1"])]
    "tags" ["a", "b"] (by decide) (by decide)
  exact ⟨h.1, h.2 (by decide)⟩

end Zono
